import Mathlib

/-!
# Model Availability & Fallback Routing Engine — verification development

Shallow embedding, in Lean 4, of the availability/fallback routing core of
`src/tauri-app/src-tauri/src/lib.rs`:

* `compute_fallbacks_with_kimi_defaults` (fallback reorderer, lib.rs 1276-1341);
* `provider_summaries_from_models_status` (auth profile summarizer, lib.rs 1474-1532);
* `compute_agent_availability` (route evaluator + blocked reason composer,
  lib.rs 1575-1751).

Rust `String` is modelled by Lean `String`, `Vec<String>` by `List String`,
`HashSet<String>` (used only through `insert`-returning-bool) by a `List String`
of already-seen values, `HashMap<String, _>` (used only through `get`/`entry`)
by an association list, `Option<T>` by `Option`, `i64` by `Int` (the code does
no arithmetic that can overflow: it only compares and takes maxima), and
`serde_json::Value` by the inductive type `Json` below.  `fmt_epoch_ms`
formats an epoch timestamp using the local timezone; it is modelled as an
abstract parameter `fmt : Int → String` of the evaluator.
-/

/-- The set of characters Rust's `char::is_whitespace` recognises (the Unicode
`White_Space` property); Rust `str::trim` strips these from both ends. -/
def rustIsWhitespace (c : Char) : Bool :=
  c = ' ' || c = '\t' || c = '\n' ||
  c = Char.ofNat 0x0B || c = Char.ofNat 0x0C || c = '\r' ||
  c = Char.ofNat 0x85 || c = Char.ofNat 0xA0 || c = Char.ofNat 0x1680 ||
  (decide (0x2000 ≤ c.toNat) && decide (c.toNat ≤ 0x200A)) ||
  c = Char.ofNat 0x2028 || c = Char.ofNat 0x2029 ||
  c = Char.ofNat 0x202F || c = Char.ofNat 0x205F || c = Char.ofNat 0x3000

/-- Rust `str::trim`: drop leading and trailing whitespace. -/
def rustTrim (s : String) : String :=
  String.mk (((s.toList.dropWhile rustIsWhitespace).reverse.dropWhile
      rustIsWhitespace).reverse)

/-- First-occurrence-wins deduplication against a set of already-seen values;
this is the recurring Rust pattern `if seen.insert(x) { out.push(x) }`. -/
def dedupF : List String → List String → List String
  | [], _ => []
  | x :: xs, seen =>
    if x ∈ seen then dedupF xs seen else x :: dedupF xs (x :: seen)

/-- The model-group predicate of the fallback reorderer:
`model.starts_with("zai/glm-")` (lib.rs 1321), expressed on the character
lists of the two strings. -/
def glmPred (m : String) : Bool := "zai/glm-".toList.isPrefixOf m.toList

/-- The skip condition of the first loop of
`compute_fallbacks_with_kimi_defaults` (lib.rs 1293-1295); `kimi`, `kimiAlt`,
`fallback` are the already-trimmed policy arguments. -/
def kimiHeadSkip (kimi kimiAlt fallback m : String) : Bool :=
  (!(decide (kimi = "")) && decide (m = kimi)) ||
  (!(decide (kimiAlt = "")) && decide (m = kimiAlt)) ||
  (!(decide (fallback = "")) && decide (m = fallback))

/-- The trim/drop-blank/skip/dedup loop pattern shared by the first loop of
`compute_fallbacks_with_kimi_defaults` (lib.rs 1288-1302, with
`skip := kimiHeadSkip …`) and the `route_models` loop of
`compute_agent_availability` (lib.rs 1599-1607, with no skip condition). -/
def trimDedupLoop (skip : String → Bool) : List String → List String → List String
  | [], _ => []
  | item :: rest, seen =>
    let m := rustTrim item
    if m = "" then trimDedupLoop skip rest seen
    else if skip m then trimDedupLoop skip rest seen
    else if m ∈ seen then trimDedupLoop skip rest seen
    else m :: trimDedupLoop skip rest (m :: seen)

/-- The `head` accumulation loop of `compute_fallbacks_with_kimi_defaults`
(lib.rs 1304-1312): keep the non-blank policy models, first occurrence wins. -/
def headLoop : List String → List String → List String
  | [], acc => acc
  | m :: rest, acc =>
    if m = "" then headLoop rest acc
    else if m ∈ acc then headLoop rest acc
    else headLoop rest (acc ++ [m])

/-- `compute_fallbacks_with_kimi_defaults` (lib.rs 1276-1341). -/
def compute_fallbacks_with_kimi_defaults (current : List String)
    (kimiModel kimiAltModel fallbackModel : String) : List String :=
  let kimi := rustTrim kimiModel
  let kimiAlt := rustTrim kimiAltModel
  let fallback := rustTrim fallbackModel
  let out := trimDedupLoop (kimiHeadSkip kimi kimiAlt fallback) current []
  let head := headLoop [kimi, kimiAlt, fallback] []
  if head = [] then out
  else
    let non_glm := out.filter (fun m => !(glmPred m))
    let glm := out.filter glmPred
    dedupF (head ++ non_glm ++ glm) []

example :
    compute_fallbacks_with_kimi_defaults
      ["google/gem", "zai/glm-5", "zai/glm-4.6v"]
      "moonshot/kimi-k2.5" "kimi-coding/k2p5" "kimi-coding/k2p5" =
    ["moonshot/kimi-k2.5", "kimi-coding/k2p5", "google/gem", "zai/glm-5",
      "zai/glm-4.6v"] := by decide

example :
    compute_fallbacks_with_kimi_defaults [" google/gem ", ""] "" " " "" =
    ["google/gem"] := by decide

/-! ## Spec-side definitions for the fallback reorderer (claim C2)

`cfkdClaimed` follows the claim's wording exactly (no trimming of `current`);
`cfkdAmended` is the amended wording, which additionally trims the entries of
`current` and drops the ones blank after trimming. -/

/-- The fallback contract exactly as the spec states it: head from the trimmed
policy arguments, blanks dropped, first occurrence wins; entries of `current`
equal to a head element removed; remainder stably partitioned into non-GLM
then GLM; concatenation globally deduplicated; deduplicated remainder returned
unchanged when the head is empty. -/
def cfkdClaimed (current : List String) (k a f : String) : List String :=
  let head := dedupF (([k, a, f].map rustTrim).filter (fun m => !(decide (m = "")))) []
  let remainder := current.filter (fun m => !(decide (m ∈ head)))
  if head = [] then dedupF remainder []
  else
    dedupF (head ++ remainder.filter (fun m => !(glmPred m)) ++
      remainder.filter glmPred) []

/-- The amended contract: as `cfkdClaimed`, except that the entries of
`current` are trimmed and entries blank after trimming are dropped before the
head elements are removed. -/
def cfkdAmended (current : List String) (k a f : String) : List String :=
  let head := dedupF (([k, a, f].map rustTrim).filter (fun m => !(decide (m = "")))) []
  let remainder := ((current.map rustTrim).filter
      (fun m => !(decide (m = "")))).filter (fun m => !(decide (m ∈ head)))
  if head = [] then dedupF remainder []
  else
    dedupF (head ++ remainder.filter (fun m => !(glmPred m)) ++
      remainder.filter glmPred) []

/-! ## Toolkit: facts about `dedupF`, `trimDedupLoop`, `headLoop`, `rustTrim` -/

theorem mem_dedupF (x : String) :
    ∀ (l seen : List String), x ∈ dedupF l seen ↔ x ∈ l ∧ x ∉ seen := by
  intro l
  induction l with
  | nil => intro seen; simp [dedupF]
  | cons y ys ih =>
    intro seen
    by_cases hy : y ∈ seen
    · rw [dedupF, if_pos hy, ih]
      constructor
      · rintro ⟨hmem, hns⟩
        exact ⟨List.mem_cons_of_mem _ hmem, hns⟩
      · rintro ⟨hmem, hns⟩
        rcases List.mem_cons.mp hmem with rfl | hmem
        · exact absurd hy hns
        · exact ⟨hmem, hns⟩
    · rw [dedupF, if_neg hy]
      constructor
      · intro hmem
        rcases List.mem_cons.mp hmem with rfl | hmem
        · exact ⟨List.mem_cons_self _ _, hy⟩
        · rcases (ih (y :: seen)).mp hmem with ⟨h1, h2⟩
          exact ⟨List.mem_cons_of_mem _ h1,
            fun hs => h2 (List.mem_cons_of_mem _ hs)⟩
      · rintro ⟨hmem, hns⟩
        rcases List.mem_cons.mp hmem with rfl | hmem
        · exact List.mem_cons_self _ _
        · by_cases hxy : x = y
          · subst hxy; exact List.mem_cons_self _ _
          · exact List.mem_cons_of_mem _ ((ih (y :: seen)).mpr
              ⟨hmem, fun hs => (List.mem_cons.mp hs).elim hxy hns⟩)

theorem dedupF_nodup : ∀ (l seen : List String), (dedupF l seen).Nodup := by
  intro l
  induction l with
  | nil => intro seen; simp [dedupF]
  | cons y ys ih =>
    intro seen
    by_cases hy : y ∈ seen
    · rw [dedupF, if_pos hy]; exact ih seen
    · rw [dedupF, if_neg hy]
      refine List.nodup_cons.mpr ⟨?_, ih (y :: seen)⟩
      intro hmem
      exact ((mem_dedupF y ys (y :: seen)).mp hmem).2 (List.mem_cons_self _ _)

theorem dedupF_congr_seen :
    ∀ (l s s' : List String), (∀ x, x ∈ s ↔ x ∈ s') →
      dedupF l s = dedupF l s' := by
  intro l
  induction l with
  | nil => intro s s' _; rfl
  | cons y ys ih =>
    intro s s' h
    by_cases hy : y ∈ s
    · rw [dedupF, if_pos hy, dedupF, if_pos ((h y).mp hy)]
      exact ih s s' h
    · rw [dedupF, if_neg hy, dedupF, if_neg (fun c => hy ((h y).mpr c))]
      refine congrArg (y :: ·) (ih _ _ ?_)
      intro x
      simp only [List.mem_cons]
      exact or_congr Iff.rfl (h x)

theorem dedupF_eq_self :
    ∀ (l seen : List String), l.Nodup → (∀ x ∈ l, x ∉ seen) →
      dedupF l seen = l := by
  intro l
  induction l with
  | nil => intro seen _ _; rfl
  | cons y ys ih =>
    intro seen hnd hout
    rw [dedupF, if_neg (hout y (List.mem_cons_self _ _))]
    refine congrArg (y :: ·) (ih _ (List.nodup_cons.mp hnd).2 ?_)
    intro x hx
    intro hmem
    rcases List.mem_cons.mp hmem with rfl | hmem
    · exact (List.nodup_cons.mp hnd).1 hx
    · exact hout x (List.mem_cons_of_mem _ hx) hmem

theorem dedupF_dedupF :
    ∀ (l s s' : List String), (∀ x, x ∈ s → x ∈ s') →
      dedupF (dedupF l s) s' = dedupF l s' := by
  intro l
  induction l with
  | nil => intro s s' _; rfl
  | cons y ys ih =>
    intro s s' h
    by_cases hy : y ∈ s
    · rw [dedupF, if_pos hy, dedupF, if_pos (h y hy)]
      exact ih s s' h
    · rw [dedupF, if_neg hy]
      by_cases hy' : y ∈ s'
      · rw [dedupF, if_pos hy', dedupF, if_pos hy']
        refine ih (y :: s) s' ?_
        intro x hx
        rcases List.mem_cons.mp hx with rfl | hx
        · exact hy'
        · exact h x hx
      · rw [dedupF, if_neg hy', dedupF, if_neg hy']
        refine congrArg (y :: ·) (ih (y :: s) (y :: s') ?_)
        intro x hx
        rcases List.mem_cons.mp hx with rfl | hx
        · exact List.mem_cons_self _ _
        · exact List.mem_cons_of_mem _ (h x hx)

theorem dedupF_append :
    ∀ (a b s : List String),
      dedupF (a ++ b) s = dedupF a s ++ dedupF b (a ++ s) := by
  intro a
  induction a with
  | nil => intro b s; rfl
  | cons y a' ih =>
    intro b s
    by_cases hy : y ∈ s
    · rw [List.cons_append, dedupF, if_pos hy, dedupF, if_pos hy, ih]
      refine congrArg _ (dedupF_congr_seen _ _ _ ?_)
      intro x
      simp only [List.mem_append, List.cons_append, List.mem_cons]
      constructor
      · rintro (hx | hx)
        · exact Or.inr (Or.inl hx)
        · exact Or.inr (Or.inr hx)
      · rintro (rfl | hx | hx)
        · exact Or.inr hy
        · exact Or.inl hx
        · exact Or.inr hx
    · rw [List.cons_append, dedupF, if_neg hy, dedupF, if_neg hy, ih,
        List.cons_append]
      refine congrArg (y :: ·) (congrArg _ (dedupF_congr_seen _ _ _ ?_))
      intro x
      simp only [List.mem_append, List.mem_cons, List.cons_append]
      tauto

theorem filter_dedupF (q : String → Bool) :
    ∀ (l s : List String),
      (dedupF l s).filter q = dedupF (l.filter q) (s.filter q) := by
  intro l
  induction l with
  | nil => intro s; rfl
  | cons y ys ih =>
    intro s
    by_cases hy : y ∈ s
    · rw [dedupF, if_pos hy]
      by_cases hq : q y
      · rw [List.filter_cons_of_pos hq, dedupF,
          if_pos (List.mem_filter.mpr ⟨hy, hq⟩)]
        exact ih s
      · rw [List.filter_cons_of_neg hq]
        exact ih s
    · rw [dedupF, if_neg hy]
      by_cases hq : q y
      · rw [List.filter_cons_of_pos hq, List.filter_cons_of_pos hq, dedupF,
          if_neg (fun c => hy (List.mem_filter.mp c).1), ih,
          List.filter_cons_of_pos hq]
      · rw [List.filter_cons_of_neg hq, List.filter_cons_of_neg hq, ih,
          List.filter_cons_of_neg hq]

theorem dedupF_eq_nil_iff :
    ∀ (l seen : List String), dedupF l seen = [] ↔ ∀ x ∈ l, x ∈ seen := by
  intro l
  induction l with
  | nil => intro seen; simp [dedupF]
  | cons y ys ih =>
    intro seen
    by_cases hy : y ∈ seen
    · rw [dedupF, if_pos hy, ih]
      constructor
      · intro h x hx
        rcases List.mem_cons.mp hx with rfl | hx
        · exact hy
        · exact h x hx
      · intro h x hx
        exact h x (List.mem_cons_of_mem _ hx)
    · rw [dedupF, if_neg hy]
      constructor
      · intro h; exact absurd h (List.cons_ne_nil _ _)
      · intro h; exact absurd (h y (List.mem_cons_self _ _)) hy

theorem dropWhile_dropWhile (p : Char → Bool) :
    ∀ (l : List Char), (l.dropWhile p).dropWhile p = l.dropWhile p := by
  intro l
  induction l with
  | nil => rfl
  | cons a t ih =>
    by_cases ha : p a
    · rw [List.dropWhile_cons_of_pos ha]; exact ih
    · rw [List.dropWhile_cons_of_neg ha, List.dropWhile_cons_of_neg ha]

theorem dropWhile_eq_append (p : Char → Bool) :
    ∀ (l : List Char), ∃ u, l = u ++ l.dropWhile p := by
  intro l
  induction l with
  | nil => exact ⟨[], rfl⟩
  | cons a t ih =>
    by_cases ha : p a
    · rcases ih with ⟨u, hu⟩
      exact ⟨a :: u, by rw [List.dropWhile_cons_of_pos ha, List.cons_append, ← hu]⟩
    · exact ⟨[], by rw [List.dropWhile_cons_of_neg ha, List.nil_append]⟩

theorem head?_dropWhile (p : Char → Bool) :
    ∀ (l : List Char) (x : Char), (l.dropWhile p).head? = some x → p x = false := by
  intro l
  induction l with
  | nil => intro x h; exact absurd h (by simp)
  | cons a t ih =>
    intro x h
    by_cases ha : p a
    · rw [List.dropWhile_cons_of_pos ha] at h; exact ih x h
    · rw [List.dropWhile_cons_of_neg ha] at h
      simp only [List.head?_cons, Option.some.injEq] at h
      subst h
      exact Bool.not_eq_true _ ▸ ha

theorem dropWhile_eq_self_of_head? (p : Char → Bool) (l : List Char)
    (h : ∀ x, l.head? = some x → p x = false) : l.dropWhile p = l := by
  cases l with
  | nil => rfl
  | cons a t => exact List.dropWhile_cons_of_neg (by simp [h a rfl])

theorem rustTrim_idem (s : String) : rustTrim (rustTrim s) = rustTrim s := by
  unfold rustTrim
  set p := rustIsWhitespace with hp
  set A := s.toList.dropWhile p with hA
  have htl : (String.mk ((A.reverse.dropWhile p).reverse)).toList =
      (A.reverse.dropWhile p).reverse := rfl
  rw [htl]
  set L := (A.reverse.dropWhile p).reverse with hL
  have hLrev : L.reverse = A.reverse.dropWhile p := by
    rw [hL, List.reverse_reverse]
  -- Step 1: `L.dropWhile p = L` because the head of `L` is the head of `A`.
  have hstep1 : L.dropWhile p = L := by
    rcases dropWhile_eq_append p A.reverse with ⟨u, hu⟩
    have hAL : A = L ++ u.reverse := by
      have := congrArg List.reverse hu
      rw [List.reverse_reverse, List.reverse_append, ← hLrev,
        List.reverse_reverse] at this
      exact this
    refine dropWhile_eq_self_of_head? p L ?_
    intro x hx
    have hxA : A.head? = some x := by
      rw [hAL, List.head?_append, hx]; rfl
    exact head?_dropWhile p s.toList x (hA ▸ hxA)
  -- Step 2: trimming the tail of `L` again does nothing either.
  have hstep2 : L.reverse.dropWhile p = L.reverse := by
    rw [hLrev, dropWhile_dropWhile]
  rw [hstep1, hstep2, List.reverse_reverse]

theorem trimDedupLoop_eq (skip : String → Bool) :
    ∀ (items seen : List String),
      trimDedupLoop skip items seen =
        dedupF ((items.map rustTrim).filter
          (fun m => !(decide (m = "")) && !(skip m))) seen := by
  intro items
  induction items with
  | nil => intro seen; rfl
  | cons item rest ih =>
    intro seen
    simp only [trimDedupLoop, List.map_cons]
    by_cases h1 : rustTrim item = ""
    · rw [if_pos h1, List.filter_cons_of_neg (by simp [h1])]
      exact ih seen
    · rw [if_neg h1]
      by_cases h2 : skip (rustTrim item)
      · rw [if_pos h2, List.filter_cons_of_neg (by simp [h1, h2])]
        exact ih seen
      · rw [if_neg h2, List.filter_cons_of_pos (by simp [h1, h2])]
        by_cases h3 : rustTrim item ∈ seen
        · rw [if_pos h3, dedupF, if_pos h3]
          exact ih seen
        · rw [if_neg h3, dedupF, if_neg h3]
          exact congrArg _ (ih _)

theorem headLoop_eq :
    ∀ (l acc : List String),
      headLoop l acc = acc ++ dedupF (l.filter (fun m => !(decide (m = "")))) acc := by
  intro l
  induction l with
  | nil => intro acc; simp [headLoop, dedupF]
  | cons m rest ih =>
    intro acc
    simp only [headLoop]
    by_cases h1 : m = ""
    · rw [if_pos h1, List.filter_cons_of_neg (by simp [h1])]
      exact ih acc
    · rw [if_neg h1, List.filter_cons_of_pos (by simp [h1])]
      by_cases h2 : m ∈ acc
      · rw [if_pos h2, dedupF, if_pos h2]
        exact ih acc
      · rw [if_neg h2, dedupF, if_neg h2, ih (acc ++ [m]),
          List.append_assoc, List.singleton_append]
        refine congrArg (acc ++ m :: ·) (dedupF_congr_seen _ _ _ ?_)
        intro x
        simp only [List.mem_append, List.mem_singleton, List.mem_cons]
        tauto

theorem kimiHeadSkip_eq_mem_head (k a f m : String) :
    kimiHeadSkip k a f m = true ↔
      m ∈ dedupF ([k, a, f].filter (fun x => !(decide (x = "")))) [] := by
  rw [mem_dedupF]
  simp only [kimiHeadSkip, Bool.or_eq_true, Bool.and_eq_true, Bool.not_eq_true',
    decide_eq_true_eq, decide_eq_false_iff_not, List.mem_filter,
    List.not_mem_nil, not_false_iff, and_true, List.mem_cons,
    List.not_mem_nil, or_false, Bool.not_eq_true, Bool.not_eq_false]
  constructor
  · rintro ((hk | ha) | hf)
    · exact ⟨Or.inl hk.2, by simp [hk.2, hk.1]⟩
    · exact ⟨Or.inr (Or.inl ha.2), by simp [ha.2, ha.1]⟩
    · exact ⟨Or.inr (Or.inr hf.2), by simp [hf.2, hf.1]⟩
  · rintro ⟨(hm | hm | hm), hne⟩
    · exact Or.inl (Or.inl ⟨by simp_all, hm⟩)
    · exact Or.inl (Or.inr ⟨by simp_all, hm⟩)
    · exact Or.inr ⟨by simp_all, hm⟩

theorem dedupF_append_dedup (H X Y : List String) :
    dedupF (H ++ dedupF X [] ++ dedupF Y []) [] = dedupF (H ++ X ++ Y) [] := by
  rw [dedupF_append (H ++ dedupF X []) (dedupF Y []) [],
    dedupF_append H (dedupF X []) [],
    dedupF_append (H ++ X) Y [], dedupF_append H X [],
    dedupF_dedupF X [] (H ++ []) (fun x hx => absurd hx (List.not_mem_nil x)),
    dedupF_dedupF Y [] ((H ++ dedupF X []) ++ [])
      (fun x hx => absurd hx (List.not_mem_nil x))]
  refine congrArg (dedupF H [] ++ dedupF X (H ++ []) ++ ·)
    (dedupF_congr_seen _ _ _ ?_)
  intro x
  simp only [List.mem_append, List.not_mem_nil, or_false, mem_dedupF]
  tauto

theorem cfkd_filter_eq (T : List String) (k a f : String) :
    T.filter (fun m => !(decide (m = "")) && !(kimiHeadSkip k a f m)) =
    (T.filter (fun m => !(decide (m = "")))).filter
      (fun m => !(decide (m ∈ dedupF ([k, a, f].filter
        (fun x => !(decide (x = "")))) []))) := by
  rw [List.filter_filter]
  refine List.filter_congr ?_
  intro m _
  by_cases hm : m = ""
  · simp [hm]
  · by_cases hsk : kimiHeadSkip k a f m = true
    · have := (kimiHeadSkip_eq_mem_head k a f m).mp hsk
      simp [hm, hsk, this]
    · have hnm : m ∉ dedupF ([k, a, f].filter (fun x => !(decide (x = "")))) [] :=
        fun c => hsk ((kimiHeadSkip_eq_mem_head k a f m).mpr c)
      simp only [Bool.not_eq_true] at hsk
      simp [hm, hsk, hnm]

theorem cfkd_eq_amended (current : List String) (k a f : String) :
    compute_fallbacks_with_kimi_defaults current k a f =
      cfkdAmended current k a f := by
  dsimp only [compute_fallbacks_with_kimi_defaults, cfkdAmended]
  rw [headLoop_eq, List.nil_append, trimDedupLoop_eq,
    cfkd_filter_eq (current.map rustTrim) (rustTrim k) (rustTrim a) (rustTrim f)]
  simp only [List.map_cons, List.map_nil]
  set H := dedupF ([rustTrim k, rustTrim a, rustTrim f].filter
    (fun x => !(decide (x = "")))) [] with hHdef
  set R := ((current.map rustTrim).filter
    (fun m => !(decide (m = "")))).filter (fun m => !(decide (m ∈ H))) with hRdef
  by_cases hH : H = []
  · rw [if_pos hH, if_pos hH]
  · rw [if_neg hH, if_neg hH, filter_dedupF, filter_dedupF]
    simp only [List.filter_nil]
    rw [dedupF_append_dedup]

/-- Closed form of `compute_fallbacks_with_kimi_defaults` used inside proofs. -/
def cfkdClosed (current : List String) (k a f : String) : List String :=
  let H := dedupF ([rustTrim k, rustTrim a, rustTrim f].filter
    (fun m => !(decide (m = "")))) []
  let out := dedupF ((current.map rustTrim).filter
    (fun m => !(decide (m = "")) &&
      !(kimiHeadSkip (rustTrim k) (rustTrim a) (rustTrim f) m))) []
  if H = [] then out
  else dedupF (H ++ out.filter (fun m => !(glmPred m)) ++ out.filter glmPred) []

theorem cfkd_eq_closed (current : List String) (k a f : String) :
    compute_fallbacks_with_kimi_defaults current k a f =
      cfkdClosed current k a f := by
  dsimp only [compute_fallbacks_with_kimi_defaults, cfkdClosed]
  rw [headLoop_eq, List.nil_append, trimDedupLoop_eq]

theorem rustTrim_fixed_of_mem_map {cur : List String} {x : String}
    (hx : x ∈ cur.map rustTrim) : rustTrim x = x := by
  rcases List.mem_map.mp hx with ⟨s, _, rfl⟩
  exact rustTrim_idem s

theorem map_id_of_fixed {l : List String} {g : String → String}
    (h : ∀ x ∈ l, g x = x) : l.map g = l := by
  induction l with
  | nil => rfl
  | cons y ys ih =>
    rw [List.map_cons, h y (List.mem_cons_self _ _),
      ih (fun x hx => h x (List.mem_cons_of_mem _ hx))]

theorem filter_self_of (l : List String) (p : String → Bool)
    (h : ∀ x ∈ l, p x = true) : l.filter p = l := by
  induction l with
  | nil => rfl
  | cons y ys ih =>
    rw [List.filter_cons_of_pos (h y (List.mem_cons_self _ _)),
      ih (fun x hx => h x (List.mem_cons_of_mem _ hx))]

theorem filter_nil_of (l : List String) (p : String → Bool)
    (h : ∀ x ∈ l, p x = false) : l.filter p = [] := by
  induction l with
  | nil => rfl
  | cons y ys ih =>
    rw [List.filter_cons_of_neg (by simp [h y (List.mem_cons_self _ _)]),
      ih (fun x hx => h x (List.mem_cons_of_mem _ hx))]

theorem cfkdClosed_idem (cur : List String) (k a f : String) :
    cfkdClosed (cfkdClosed cur k a f) k a f = cfkdClosed cur k a f := by
  dsimp only [cfkdClosed]
  set H := dedupF ([rustTrim k, rustTrim a, rustTrim f].filter
    (fun m => !(decide (m = "")))) [] with hHdef
  set q : String → Bool := fun m => !(decide (m = "")) &&
    !(kimiHeadSkip (rustTrim k) (rustTrim a) (rustTrim f) m) with hqdef
  set out := dedupF ((cur.map rustTrim).filter q) [] with houtdef
  have hqH : ∀ m, kimiHeadSkip (rustTrim k) (rustTrim a) (rustTrim f) m = true ↔
      m ∈ H := fun m => kimiHeadSkip_eq_mem_head _ _ _ m
  have houtFacts : ∀ x ∈ out, rustTrim x = x ∧ q x = true := by
    intro x hx
    have h1 := ((mem_dedupF x _ []).mp hx).1
    have h2 := List.mem_filter.mp h1
    exact ⟨rustTrim_fixed_of_mem_map h2.1, h2.2⟩
  have hHFacts : ∀ x ∈ H, rustTrim x = x ∧ q x = false := by
    intro x hx
    have h1 := ((mem_dedupF x _ []).mp hx).1
    have h2 := List.mem_filter.mp h1
    refine ⟨?_, ?_⟩
    · have hm := h2.1
      simp only [List.mem_cons, List.not_mem_nil, or_false] at hm
      rcases hm with rfl | rfl | rfl
      all_goals exact rustTrim_idem _
    · have hsk : kimiHeadSkip (rustTrim k) (rustTrim a) (rustTrim f) x = true :=
        (hqH x).mpr hx
      rw [hqdef]
      simp [hsk]
  have houtNodup : out.Nodup := dedupF_nodup _ _
  by_cases hHe : H = []
  · simp only [if_pos hHe]
    have hmap : out.map rustTrim = out :=
      map_id_of_fixed (fun x hx => (houtFacts x hx).1)
    have hfil : out.filter q = out :=
      filter_self_of _ _ (fun x hx => (houtFacts x hx).2)
    rw [hmap, hfil]
    exact dedupF_eq_self out [] houtNodup (fun x _ => List.not_mem_nil x)
  · simp only [if_neg hHe]
    set A := out.filter (fun m => !(glmPred m)) with hAdef
    set B := out.filter glmPred with hBdef
    set r := dedupF (H ++ A ++ B) [] with hrdef
    have hAsub : ∀ x ∈ A, x ∈ out := fun x hx => (List.mem_filter.mp hx).1
    have hBsub : ∀ x ∈ B, x ∈ out := fun x hx => (List.mem_filter.mp hx).1
    have hrFix : ∀ x ∈ r, rustTrim x = x := by
      intro x hx
      have h1 := ((mem_dedupF x _ []).mp hx).1
      rcases List.mem_append.mp h1 with h2 | h2
      · rcases List.mem_append.mp h2 with h3 | h3
        · exact (hHFacts x h3).1
        · exact (houtFacts x (hAsub x h3)).1
      · exact (houtFacts x (hBsub x h2)).1
    have hmap2 : r.map rustTrim = r := map_id_of_fixed hrFix
    have hfilH : H.filter q = [] :=
      filter_nil_of _ _ (fun x hx => (hHFacts x hx).2)
    have hfilA : A.filter q = A :=
      filter_self_of _ _ (fun x hx => (houtFacts x (hAsub x hx)).2)
    have hfilB : B.filter q = B :=
      filter_self_of _ _ (fun x hx => (houtFacts x (hBsub x hx)).2)
    have hABnodup : (A ++ B).Nodup := by
      rw [hAdef, hBdef]
      refine List.Nodup.append (houtNodup.filter _) (houtNodup.filter _) ?_
      intro x hxA hxB
      have h1 := (List.mem_filter.mp hxA).2
      have h2 := (List.mem_filter.mp hxB).2
      simp [h2] at h1
    have hO2 : dedupF ((r.map rustTrim).filter q) [] = A ++ B := by
      rw [hmap2, hrdef, filter_dedupF]
      simp only [List.filter_nil]
      rw [List.filter_append, List.filter_append, hfilH, hfilA, hfilB,
        List.nil_append]
      rw [dedupF_dedupF _ [] [] (fun x hx => hx)]
      exact dedupF_eq_self _ [] hABnodup (fun x _ => List.not_mem_nil x)
    have hA2 : (A ++ B).filter (fun m => !(glmPred m)) = A := by
      rw [List.filter_append,
        filter_self_of A _ (fun x hx => (List.mem_filter.mp hx).2),
        filter_nil_of B _ (fun x hx => by
          have hg := (List.mem_filter.mp hx).2
          simp [hg]), List.append_nil]
    have hB2 : (A ++ B).filter glmPred = B := by
      rw [List.filter_append,
        filter_nil_of A _ (fun x hx => by
          have hg := (List.mem_filter.mp hx).2
          simpa using hg),
        filter_self_of B _ (fun x hx => (List.mem_filter.mp hx).2),
        List.nil_append]
    rw [hO2, hA2, hB2]

theorem filter_filter_subsume (T : List String) (p q : String → Bool)
    (himp : ∀ x, q x = true → p x = true) :
    (T.filter p).filter q = T.filter q := by
  induction T with
  | nil => rfl
  | cons y ys ih =>
    by_cases hq : q y = true
    · rw [List.filter_cons_of_pos (himp y hq), List.filter_cons_of_pos hq,
        List.filter_cons_of_pos hq, ih]
    · by_cases hp : p y = true
      · rw [List.filter_cons_of_pos hp, List.filter_cons_of_neg hq,
          List.filter_cons_of_neg hq, ih]
      · rw [List.filter_cons_of_neg hp, List.filter_cons_of_neg hq]
        exact ih

theorem cfkd_nodup (cur : List String) (k a f : String) :
    (compute_fallbacks_with_kimi_defaults cur k a f).Nodup := by
  rw [cfkd_eq_closed]
  dsimp only [cfkdClosed]
  split
  · exact dedupF_nodup _ _
  · exact dedupF_nodup _ _

theorem cfkd_covers (cur : List String) (k a f s : String)
    (hs : s ∈ cur ∨ s ∈ [k, a, f]) (hne : rustTrim s ≠ "") :
    rustTrim s ∈ compute_fallbacks_with_kimi_defaults cur k a f := by
  rw [cfkd_eq_closed]
  dsimp only [cfkdClosed]
  set H := dedupF ([rustTrim k, rustTrim a, rustTrim f].filter
    (fun m => !(decide (m = "")))) [] with hHdef
  set q : String → Bool := fun m => !(decide (m = "")) &&
    !(kimiHeadSkip (rustTrim k) (rustTrim a) (rustTrim f) m) with hqdef
  set out := dedupF ((cur.map rustTrim).filter q) [] with houtdef
  by_cases hsk : kimiHeadSkip (rustTrim k) (rustTrim a) (rustTrim f)
      (rustTrim s) = true
  · have hmH : rustTrim s ∈ H := (kimiHeadSkip_eq_mem_head _ _ _ _).mp hsk
    rw [if_neg (List.ne_nil_of_mem hmH)]
    exact (mem_dedupF _ _ _).mpr
      ⟨List.mem_append.mpr (Or.inl (List.mem_append.mpr (Or.inl hmH))),
        List.not_mem_nil _⟩
  · have hskf : kimiHeadSkip (rustTrim k) (rustTrim a) (rustTrim f)
        (rustTrim s) = false := by
      cases hb : kimiHeadSkip (rustTrim k) (rustTrim a) (rustTrim f) (rustTrim s)
      · rfl
      · exact absurd hb hsk
    have hq : q (rustTrim s) = true := by
      rw [hqdef]; simp [hne, hskf]
    rcases hs with hcur | harg
    · have hmout : rustTrim s ∈ out := by
        rw [houtdef]
        refine (mem_dedupF _ _ _).mpr ⟨?_, List.not_mem_nil _⟩
        exact List.mem_filter.mpr ⟨List.mem_map.mpr ⟨s, hcur, rfl⟩, hq⟩
      by_cases hH : H = []
      · rw [if_pos hH]; exact hmout
      · rw [if_neg hH]
        refine (mem_dedupF _ _ _).mpr ⟨?_, List.not_mem_nil _⟩
        by_cases hg : glmPred (rustTrim s) = true
        · exact List.mem_append.mpr (Or.inr (List.mem_filter.mpr ⟨hmout, hg⟩))
        · refine List.mem_append.mpr (Or.inl (List.mem_append.mpr (Or.inr ?_)))
          exact List.mem_filter.mpr ⟨hmout, by simp [hg]⟩
    · exfalso
      apply hsk
      have hm : rustTrim s ∈ ([rustTrim k, rustTrim a, rustTrim f] : List String) := by
        simp only [List.mem_cons, List.not_mem_nil, or_false] at harg ⊢
        rcases harg with rfl | rfl | rfl
        · exact Or.inl rfl
        · exact Or.inr (Or.inl rfl)
        · exact Or.inr (Or.inr rfl)
      rw [kimiHeadSkip_eq_mem_head]
      refine (mem_dedupF _ _ _).mpr ⟨?_, List.not_mem_nil _⟩
      exact List.mem_filter.mpr ⟨hm, by simp [hne]⟩

theorem cfkd_elems (cur : List String) (k a f : String) :
    ∀ x ∈ compute_fallbacks_with_kimi_defaults cur k a f,
      x ≠ "" ∧ rustTrim x = x := by
  rw [cfkd_eq_closed]
  dsimp only [cfkdClosed]
  set H := dedupF ([rustTrim k, rustTrim a, rustTrim f].filter
    (fun m => !(decide (m = "")))) [] with hHdef
  set q : String → Bool := fun m => !(decide (m = "")) &&
    !(kimiHeadSkip (rustTrim k) (rustTrim a) (rustTrim f) m) with hqdef
  set out := dedupF ((cur.map rustTrim).filter q) [] with houtdef
  have hHmem : ∀ x ∈ H, x ≠ "" ∧ rustTrim x = x := by
    intro x hx
    have h1 := List.mem_filter.mp ((mem_dedupF x _ []).mp hx).1
    constructor
    · have h2 := h1.2; simpa using h2
    · have hm := h1.1
      simp only [List.mem_cons, List.not_mem_nil, or_false] at hm
      rcases hm with rfl | rfl | rfl <;> exact rustTrim_idem _
  have houtmem : ∀ x ∈ out, x ≠ "" ∧ rustTrim x = x := by
    intro x hx
    have h1 := List.mem_filter.mp ((mem_dedupF x _ []).mp hx).1
    constructor
    · have h2 := h1.2
      rw [hqdef] at h2
      simp only [Bool.and_eq_true, Bool.not_eq_true', decide_eq_false_iff_not] at h2
      exact h2.1
    · exact rustTrim_fixed_of_mem_map h1.1
  intro x hx
  by_cases hH : H = []
  · rw [if_pos hH] at hx; exact houtmem x hx
  · rw [if_neg hH] at hx
    have h1 := ((mem_dedupF x _ []).mp hx).1
    rcases List.mem_append.mp h1 with h2 | h2
    · rcases List.mem_append.mp h2 with h3 | h3
      · exact hHmem x h3
      · exact houtmem x (List.mem_filter.mp h3).1
    · exact houtmem x (List.mem_filter.mp h2).1

theorem cfkd_trim_invariant (cur : List String) (k a f : String) :
    compute_fallbacks_with_kimi_defaults
        ((cur.map rustTrim).filter (fun m => !(decide (m = "")))) k a f =
      compute_fallbacks_with_kimi_defaults cur k a f := by
  rw [cfkd_eq_closed, cfkd_eq_closed]
  dsimp only [cfkdClosed]
  have h1 : ((cur.map rustTrim).filter (fun m => !(decide (m = "")))).map rustTrim
      = (cur.map rustTrim).filter (fun m => !(decide (m = ""))) :=
    map_id_of_fixed (fun x hx =>
      rustTrim_fixed_of_mem_map (List.mem_filter.mp hx).1)
  rw [h1, filter_filter_subsume (cur.map rustTrim)
    (fun m => !(decide (m = "")))
    (fun m => !(decide (m = "")) &&
      !(kimiHeadSkip (rustTrim k) (rustTrim a) (rustTrim f) m))
    (fun x hx => by
      simp only [Bool.and_eq_true] at hx
      exact hx.1)]

/-! ## Claims C2, C6, C7, C10: the fallback reorderer -/

/-- C2 (corrected): `compute_fallbacks_with_kimi_defaults` realises the
head/partition/dedup contract — provided the contract is amended so that the
entries of `current` are trimmed and blank entries dropped (the claim as
stated applies no trimming to `current`) — and on the spec's example input it
returns exactly the expected list. -/
theorem C2_contract_amended :
    (∀ (current : List String) (k a f : String),
      compute_fallbacks_with_kimi_defaults current k a f =
        cfkdAmended current k a f) ∧
    compute_fallbacks_with_kimi_defaults
        ["google/gem", "zai/glm-5", "zai/glm-4.6v"]
        "moonshot/kimi-k2.5" "kimi-coding/k2p5" "kimi-coding/k2p5" =
      ["moonshot/kimi-k2.5", "kimi-coding/k2p5", "google/gem", "zai/glm-5",
        "zai/glm-4.6v"] :=
  ⟨cfkd_eq_amended, by decide⟩

/-- C2 (counterexample): on `current = [" google/gem "]` with all three policy
arguments blank, the code trims the entry and returns `["google/gem"]`, while
the construction described by the claim returns the untrimmed
`[" google/gem "]`. -/
theorem C2_counterexample :
    compute_fallbacks_with_kimi_defaults [" google/gem "] "" "" "" =
        ["google/gem"] ∧
    cfkdClaimed [" google/gem "] "" "" "" = [" google/gem "] ∧
    compute_fallbacks_with_kimi_defaults [" google/gem "] "" "" "" ≠
      cfkdClaimed [" google/gem "] "" "" "" := by decide

/-- C6 (confirmed): `compute_fallbacks_with_kimi_defaults` is idempotent —
reapplying it to its own output with the same policy arguments returns the
same list. -/
theorem C6_idempotent :
    ∀ (current : List String) (k a f : String),
      compute_fallbacks_with_kimi_defaults
          (compute_fallbacks_with_kimi_defaults current k a f) k a f =
        compute_fallbacks_with_kimi_defaults current k a f := by
  intro current k a f
  rw [cfkd_eq_closed current k a f, cfkd_eq_closed, cfkdClosed_idem]

/-- C7 (confirmed): the output of `compute_fallbacks_with_kimi_defaults` has
no duplicates, and it contains every distinct model occurring in `current` or
among the head arguments (a model being the trimmed, non-blank form of an
entry). -/
theorem C7_no_drop_no_dup :
    ∀ (current : List String) (k a f : String),
      (compute_fallbacks_with_kimi_defaults current k a f).Nodup ∧
      (∀ s, (s ∈ current ∨ s ∈ [k, a, f]) → rustTrim s ≠ "" →
        rustTrim s ∈ compute_fallbacks_with_kimi_defaults current k a f) :=
  fun current k a f =>
    ⟨cfkd_nodup current k a f,
      fun s hs hne => cfkd_covers current k a f s hs hne⟩

/-- Witness for C7 at a concrete input. -/
theorem C7_witness :
    (compute_fallbacks_with_kimi_defaults ["x/a", "zai/glm-9"] "k/m" "" "").Nodup ∧
    "zai/glm-9" ∈ compute_fallbacks_with_kimi_defaults
      ["x/a", "zai/glm-9"] "k/m" "" "" ∧
    "k/m" ∈ compute_fallbacks_with_kimi_defaults
      ["x/a", "zai/glm-9"] "k/m" "" "" := by
  have h := C7_no_drop_no_dup ["x/a", "zai/glm-9"] "k/m" "" ""
  refine ⟨h.1, ?_, ?_⟩
  · have h2 := h.2 "zai/glm-9" (Or.inl (by decide)) (by decide)
    have h3 : rustTrim "zai/glm-9" = "zai/glm-9" := by decide
    rwa [h3] at h2
  · have h2 := h.2 "k/m" (Or.inr (by decide)) (by decide)
    have h3 : rustTrim "k/m" = "k/m" := by decide
    rwa [h3] at h2

/-- C10 (confirmed): `compute_fallbacks_with_kimi_defaults` trims every entry
of `current` and drops entries blank after trimming (pre-trimming `current`
does not change the result), so every element of the returned list is
non-empty and free of leading/trailing whitespace. -/
theorem C10_trimmed_output :
    ∀ (current : List String) (k a f : String),
      compute_fallbacks_with_kimi_defaults
          ((current.map rustTrim).filter (fun m => !(decide (m = "")))) k a f =
        compute_fallbacks_with_kimi_defaults current k a f ∧
      (∀ x ∈ compute_fallbacks_with_kimi_defaults current k a f,
        x ≠ "" ∧ rustTrim x = x) :=
  fun current k a f =>
    ⟨cfkd_trim_invariant current k a f, cfkd_elems current k a f⟩

/-- Witness for C10 at a concrete input. -/
theorem C10_witness :
    compute_fallbacks_with_kimi_defaults
        (([" google/gem ", " "].map rustTrim).filter
          (fun m => !(decide (m = "")))) "k/m" "" "" =
      compute_fallbacks_with_kimi_defaults [" google/gem ", " "] "k/m" "" "" ∧
    ("google/gem" ≠ "" ∧ rustTrim "google/gem" = "google/gem") := by
  have h := C10_trimmed_output [" google/gem ", " "] "k/m" "" ""
  exact ⟨h.1, h.2 "google/gem" (by decide)⟩

/-! ## JSON model and the auth profile summarizer

`Json` models `serde_json::Value`.  Integral numbers (the only numbers the
engine inspects, via `as_i64`) carry an `Int`; `numNonInt` stands for any
number on which `as_i64` fails.  `Json.get` models `Value::get(&str)`, which
yields a field of an object and `None` on every other variant (the JSON
pointer segments used by the engine are non-numeric, so pointer lookups on
arrays also yield `None`). -/

inductive Json where
  | null : Json
  | bool : Bool → Json
  | num : Int → Json
  | numNonInt : Json
  | str : String → Json
  | arr : List Json → Json
  | obj : List (String × Json) → Json

/-- First-match field lookup in an object's field list (serde keeps keys
unique, so first-match agrees with its map semantics). -/
def lookupField : List (String × Json) → String → Option Json
  | [], _ => none
  | (k, v) :: rest, key => if k = key then some v else lookupField rest key

/-- `serde_json::Value::get` with a string index. -/
def Json.get : Json → String → Option Json
  | .obj fields, key => lookupField fields key
  | _, _ => none

/-- `Value::as_str`. -/
def Json.asStr : Json → Option String
  | .str s => some s
  | _ => none

/-- `Value::as_i64`. -/
def Json.asI64 : Json → Option Int
  | .num n => some n
  | _ => none

/-- `Value::as_array`. -/
def Json.asArr : Json → Option (List Json)
  | .arr xs => some xs
  | _ => none

/-- `ProviderAuthSummary` (lib.rs 1464-1472); `Default` yields all-zero/false. -/
structure ProviderAuthSummary where
  total_profiles : Nat := 0
  cooldown_profiles : Nat := 0
  cooldown_until_ms : Option Int := none
  oauth_seen : Bool := false
  oauth_has_valid : Bool := false
  api_key_seen : Bool := false
deriving DecidableEq, Repr

/-- The provider-keyed `HashMap<String, ProviderAuthSummary>`, as an
association list (the code only ever uses `get` and `entry().or_default()`,
never iteration, so lookup semantics is all that matters). -/
abbrev SummaryMap := List (String × ProviderAuthSummary)

/-- `HashMap::get`. -/
def mapGet : SummaryMap → String → Option ProviderAuthSummary
  | [], _ => none
  | (k, v) :: rest, key => if k = key then some v else mapGet rest key

/-- `HashMap::entry(k).or_default()` followed by a mutation `g`: apply `g` to
the stored summary, inserting `g default` when the key is absent. -/
def mapUpd (m : SummaryMap) (k : String)
    (g : ProviderAuthSummary → ProviderAuthSummary) : SummaryMap :=
  match m with
  | [] => [(k, g {})]
  | (k', v) :: rest =>
    if k' = k then (k', g v) :: rest else (k', v) :: mapUpd rest k g

/-- Effect of one entry of `auth.oauth.profiles` on its provider's summary
(lib.rs 1492-1504). -/
def applyProfile (s : ProviderAuthSummary) (p : Json) : ProviderAuthSummary :=
  let s := { s with total_profiles := s.total_profiles + 1 }
  let ptype := ((p.get "type").bind Json.asStr).getD ""
  if ptype = "oauth" then
    let s := { s with oauth_seen := true }
    let remaining := ((p.get "remainingMs").bind Json.asI64).getD 0
    if remaining > 0 then { s with oauth_has_valid := true } else s
  else if ptype = "api_key" then { s with api_key_seen := true }
  else s

/-- Processing of one entry of `auth.oauth.profiles`: entries with a missing
or blank-after-trim provider are skipped (lib.rs 1485-1491). -/
def stepProfile (m : SummaryMap) (p : Json) : SummaryMap :=
  match (p.get "provider").bind Json.asStr with
  | none => m
  | some provider =>
    if rustTrim provider = "" then m
    else mapUpd m provider (fun s => applyProfile s p)

/-- Effect of one entry of `auth.unusableProfiles` on its provider's summary
(lib.rs 1520-1528): bump the cooldown counter and fold `until` into the
running maximum. -/
def applyUnusable (s : ProviderAuthSummary) (u : Json) : ProviderAuthSummary :=
  let s := { s with cooldown_profiles := s.cooldown_profiles + 1 }
  match (u.get "until").bind Json.asI64 with
  | none => s
  | some untilMs =>
    let newUntil :=
      match s.cooldown_until_ms with
      | none => untilMs
      | some prev => max prev untilMs
    { s with cooldown_until_ms := some newUntil }

/-- Processing of one entry of `auth.unusableProfiles` (lib.rs 1513-1519). -/
def stepUnusable (m : SummaryMap) (u : Json) : SummaryMap :=
  match (u.get "provider").bind Json.asStr with
  | none => m
  | some provider =>
    if rustTrim provider = "" then m
    else mapUpd m provider (fun s => applyUnusable s u)

/-- The raw array at JSON pointer `/auth/oauth/profiles`, defaulting to `[]`. -/
def oauthProfilesOf (ms : Json) : List Json :=
  ((((ms.get "auth").bind (fun v => v.get "oauth")).bind
    (fun v => v.get "profiles")).bind Json.asArr).getD []

/-- The raw array at JSON pointer `/auth/unusableProfiles`, defaulting to `[]`. -/
def unusableProfilesOf (ms : Json) : List Json :=
  (((ms.get "auth").bind (fun v => v.get "unusableProfiles")).bind
    Json.asArr).getD []

/-- `provider_summaries_from_models_status` (lib.rs 1474-1532). -/
def provider_summaries_from_models_status (ms : Json) : SummaryMap :=
  (unusableProfilesOf ms).foldl stepUnusable
    ((oauthProfilesOf ms).foldl stepProfile [])

/-! ## The route evaluator -/

/-- `RouteModelStatus` (lib.rs 423-435). -/
structure RouteModelStatus where
  model : String
  provider : String
  available : Option Bool
  state : String
  cooldown_until_ms : Option Int
  auth_expired : Option Bool
  note : Option String
deriving DecidableEq, Repr

/-- `AgentAvailability` (lib.rs 411-420). -/
structure AgentAvailability where
  agent_id : String
  default_model : String
  fallbacks : List String
  route : List RouteModelStatus
  runnable_now : Bool
  first_runnable_model : Option String
  blocked_reasons : List String
deriving DecidableEq, Repr

/-- `model.split('/').next().unwrap_or("")` (lib.rs 1613): everything before
the first `'/'`, which is the whole string when no `'/'` occurs (Rust `split`
always yields at least one segment). -/
def providerOf (model : String) : String :=
  String.mk (model.toList.takeWhile (fun c => !(decide (c = '/'))))

/-- The summary consulted for a provider:
`provider_summaries.get(&provider).cloned().unwrap_or_default()`
(lib.rs 1615-1618). -/
def summaryFor (summaries : SummaryMap) (provider : String) : ProviderAuthSummary :=
  (mapGet summaries provider).getD {}

/-- `provider_all_in_cooldown` (lib.rs 1620-1621). -/
def allInCooldown (s : ProviderAuthSummary) : Bool :=
  decide (0 < s.total_profiles) && decide (s.total_profiles ≤ s.cooldown_profiles)

/-- `oauth_expired` (lib.rs 1622). -/
def oauthExpiredOf (s : ProviderAuthSummary) : Bool :=
  s.oauth_seen && !s.oauth_has_valid

/-- `auth_ok` (lib.rs 1623-1629). -/
def authOkOf (s : ProviderAuthSummary) : Bool :=
  if s.oauth_seen then s.oauth_has_valid
  else if s.api_key_seen then true
  else false

/-- `note` (lib.rs 1631-1636). -/
def noteOf (available : Option Bool) (s : ProviderAuthSummary) : Option String :=
  if available = none then
    some "Model not found in `openclaw models list` output."
  else if available = some true ∧ authOkOf s = false ∧ s.total_profiles = 0 then
    some "No auth profiles found for this provider."
  else none

/-- `state` (lib.rs 1638-1649), the strict first-match precedence. -/
def stateOf (available : Option Bool) (s : ProviderAuthSummary) : String :=
  if available = some false then "unavailable"
  else if allInCooldown s = true then "cooldown"
  else if s.oauth_seen = true ∧ oauthExpiredOf s = true then "expired"
  else if available = some true ∧ authOkOf s = true then "ok"
  else "unknown"

/-- One iteration of the route loop (lib.rs 1612-1668): the
`RouteModelStatus` pushed for `model`. -/
def routeEntry (summaries : SummaryMap) (availability : String → Option Bool)
    (model : String) : RouteModelStatus :=
  let provider := providerOf model
  let available := availability model
  let s := summaryFor summaries provider
  let state := stateOf available s
  { model := model
    provider := provider
    available := available
    state := state
    cooldown_until_ms := if state = "cooldown" then s.cooldown_until_ms else none
    auth_expired := if s.oauth_seen then some (oauthExpiredOf s) else none
    note := noteOf available s }

/-- `resolved_default` (lib.rs 1580-1585): `resolvedDefault`, falling back to
`defaultModel`, falling back to the empty string. -/
def resolvedDefaultOf (ms : Json) : String :=
  match (ms.get "resolvedDefault").bind Json.asStr with
  | some s => s
  | none => ((ms.get "defaultModel").bind Json.asStr).getD ""

/-- `fallbacks` (lib.rs 1587-1595): the `fallbacks` array with non-string
entries dropped, `[]` when absent or not an array. -/
def fallbacksOf (ms : Json) : List String :=
  match (ms.get "fallbacks").bind Json.asArr with
  | some arr => arr.filterMap Json.asStr
  | none => []

/-- `route_models` (lib.rs 1597-1607): default then fallbacks, trimmed, blanks
dropped, first occurrence wins. -/
def routeModelsOf (ms : Json) : List String :=
  trimDedupLoop (fun _ => false)
    (resolvedDefaultOf ms :: fallbacksOf ms) []

/-- The per-provider reason decision of the blocked-reason scan
(lib.rs 1691-1734): the first applicable rule's message, or `none`.  `fmt`
stands for `fmt_epoch_ms`. -/
def reasonOf (route : List RouteModelStatus) (s : ProviderAuthSummary)
    (fmt : Int → String) (p : String) : Option String :=
  if allInCooldown s = true then
    some (match s.cooldown_until_ms with
      | some u => p ++ " is in cooldown until " ++ fmt u ++ " (" ++
          toString u ++ ")."
      | none => p ++ " is in cooldown.")
  else if route.any (fun r => decide (r.provider = p) &&
      decide (r.state = "unavailable")) then
    some (p ++ " models are unavailable.")
  else if s.oauth_seen && oauthExpiredOf s then
    some (p ++ " OAuth appears expired or missing.")
  else if s.total_profiles = 0 then
    some (p ++ " has no auth profiles configured.")
  else if route.all (fun r => !(decide (r.provider = p)) ||
      decide (r.state = "unknown")) then
    some (p ++ " availability is unknown.")
  else none

/-- The blocked-reason loop (lib.rs 1678-1735): walk the route, handling each
distinct provider once (first occurrence wins via the `seen_providers` set),
emitting the provider's reason when one applies. -/
def blockedLoop (route : List RouteModelStatus) (summaries : SummaryMap)
    (fmt : Int → String) : List RouteModelStatus → List String → List String
  | [], _ => []
  | item :: rest, seen =>
    if item.provider ∈ seen then blockedLoop route summaries fmt rest seen
    else
      match reasonOf route (summaryFor summaries item.provider) fmt
          item.provider with
      | some r => r :: blockedLoop route summaries fmt rest (item.provider :: seen)
      | none => blockedLoop route summaries fmt rest (item.provider :: seen)

/-- `compute_agent_availability` (lib.rs 1575-1751). -/
def compute_agent_availability (agentId : String) (ms : Json)
    (availability : String → Option Bool) (fmt : Int → String) :
    AgentAvailability :=
  let summaries := provider_summaries_from_models_status ms
  let route := (routeModelsOf ms).map (routeEntry summaries availability)
  let first_runnable := (route.find? (fun r => decide (r.state = "ok"))).map
    (fun r => r.model)
  let runnable := first_runnable.isSome
  let blocked :=
    if runnable then []
    else
      let rs := blockedLoop route summaries fmt route []
      if rs = [] then ["No runnable route model found."] else rs
  { agent_id := agentId
    default_model := resolvedDefaultOf ms
    fallbacks := fallbacksOf ms
    route := route
    runnable_now := runnable
    first_runnable_model := first_runnable
    blocked_reasons := blocked }

/-- A JSON agent-status value with one api-key profile and one unusable entry
for provider `p`, and route `["p/m"]`; used as concrete test input. -/
def msCool : Json :=
  Json.obj [("resolvedDefault", Json.str "p/m"),
    ("auth", Json.obj
      [("oauth", Json.obj [("profiles", Json.arr
        [Json.obj [("provider", Json.str "p"), ("type", Json.str "api_key")]])]),
       ("unusableProfiles", Json.arr
        [Json.obj [("provider", Json.str "p"), ("until", Json.num 12345)]])])]

example :
    summaryFor (provider_summaries_from_models_status msCool) "p" =
      { total_profiles := 1, cooldown_profiles := 1,
        cooldown_until_ms := some 12345, oauth_seen := false,
        oauth_has_valid := false, api_key_seen := true } := by decide

example :
    ((compute_agent_availability "translator" msCool
      (fun m => if m = "p/m" then some true else none)
      (fun u => toString u)).route.map (fun r => r.state)) = ["cooldown"] := by
  decide

example :
    (compute_agent_availability "translator" msCool
      (fun m => if m = "p/m" then some true else none)
      (fun u => toString u)).blocked_reasons =
    ["p is in cooldown until 12345 (12345)."] := by decide

/-! ## Projection lemmas for `compute_agent_availability` -/

theorem compute_route_def (agentId : String) (ms : Json)
    (availability : String → Option Bool) (fmt : Int → String) :
    (compute_agent_availability agentId ms availability fmt).route =
      (routeModelsOf ms).map
        (routeEntry (provider_summaries_from_models_status ms) availability) := rfl

theorem compute_blocked_def (agentId : String) (ms : Json)
    (availability : String → Option Bool) (fmt : Int → String) :
    (compute_agent_availability agentId ms availability fmt).blocked_reasons =
      (if ((((routeModelsOf ms).map
            (routeEntry (provider_summaries_from_models_status ms) availability)).find?
          (fun r => decide (r.state = "ok"))).map (fun r => r.model)).isSome then
        ([] : List String)
      else
        let rs := blockedLoop
          ((routeModelsOf ms).map
            (routeEntry (provider_summaries_from_models_status ms) availability))
          (provider_summaries_from_models_status ms) fmt
          ((routeModelsOf ms).map
            (routeEntry (provider_summaries_from_models_status ms) availability)) []
        if rs = [] then ["No runnable route model found."] else rs) := rfl

theorem compute_runnable_def (agentId : String) (ms : Json)
    (availability : String → Option Bool) (fmt : Int → String) :
    (compute_agent_availability agentId ms availability fmt).runnable_now =
      ((((routeModelsOf ms).map
          (routeEntry (provider_summaries_from_models_status ms) availability)).find?
        (fun r => decide (r.state = "ok"))).map (fun r => r.model)).isSome := rfl

/-! ## Claim C1: the state precedence -/

/-- The per-model state exactly as the spec states it
(spec §4.3 step 5 / claim C1). -/
def claimedState (available : Option Bool) (s : ProviderAuthSummary) : String :=
  if available = some false then "unavailable"
  else if 0 < s.total_profiles ∧ s.cooldown_profiles ≥ s.total_profiles then
    "cooldown"
  else if s.oauth_seen = true ∧ s.oauth_has_valid = false then "expired"
  else if available = some true ∧
      (if s.oauth_seen then s.oauth_has_valid else s.api_key_seen) = true then "ok"
  else "unknown"

theorem stateOf_eq_claimedState (available : Option Bool)
    (s : ProviderAuthSummary) : stateOf available s = claimedState available s := by
  unfold stateOf claimedState
  refine if_congr Iff.rfl rfl (if_congr ?_ rfl (if_congr ?_ rfl
    (if_congr ?_ rfl rfl)))
  · simp [allInCooldown, ge_iff_le]
  · cases hos : s.oauth_seen <;> simp [oauthExpiredOf, hos]
  · cases hos : s.oauth_seen <;> cases hak : s.api_key_seen <;>
      simp [authOkOf, hos, hak]

/-- C1 (confirmed): every route entry's state is assigned by the claimed
strict precedence (unavailable, cooldown, expired, ok, unknown — first match
wins) from its catalog availability and its provider's auth summary. -/
theorem C1_state_precedence :
    ∀ (agentId : String) (ms : Json) (availability : String → Option Bool)
      (fmt : Int → String) (r : RouteModelStatus),
      r ∈ (compute_agent_availability agentId ms availability fmt).route →
      r.state = claimedState r.available
        (summaryFor (provider_summaries_from_models_status ms) r.provider) := by
  intro agentId ms availability fmt r hr
  rw [compute_route_def] at hr
  rcases List.mem_map.mp hr with ⟨model, _, rfl⟩
  dsimp only [routeEntry]
  exact stateOf_eq_claimedState _ _

/-- The availability lookup used by the concrete test inputs. -/
def wAvail : String → Option Bool := fun m => if m = "p/m" then some true else none

/-- A concrete stand-in for `fmt_epoch_ms`. -/
def wFmt : Int → String := fun u => toString u

/-- Witness for C1 at a concrete input. -/
theorem C1_witness :
    (routeEntry (provider_summaries_from_models_status msCool) wAvail "p/m").state =
      claimedState
        (routeEntry (provider_summaries_from_models_status msCool) wAvail
          "p/m").available
        (summaryFor (provider_summaries_from_models_status msCool)
          (routeEntry (provider_summaries_from_models_status msCool) wAvail
            "p/m").provider) :=
  C1_state_precedence "translator" msCool wAvail wFmt _ (by decide)

/-! ## Claim C4: the provider field -/

/-- The provider exactly as the spec states it (claim C4): the substring
before the first `'/'`, and the empty string when the model contains none. -/
def claimedProvider (model : String) : String :=
  if model.toList.contains '/' then
    String.mk (model.toList.takeWhile (fun c => !(decide (c = '/'))))
  else ""

/-- The amended provider: the substring before the first `'/'`, and the whole
identifier when it contains no `'/'`. -/
def claimedProviderAmended (model : String) : String :=
  if model.toList.contains '/' then
    String.mk (model.toList.takeWhile (fun c => !(decide (c = '/'))))
  else model

theorem takeWhile_all (p : Char → Bool) :
    ∀ (l : List Char), (∀ x ∈ l, p x = true) → l.takeWhile p = l := by
  intro l
  induction l with
  | nil => intro _; rfl
  | cons y ys ih =>
    intro h
    rw [List.takeWhile_cons_of_pos (h y (List.mem_cons_self _ _)),
      ih (fun x hx => h x (List.mem_cons_of_mem _ hx))]

theorem providerOf_eq_amended (m : String) :
    providerOf m = claimedProviderAmended m := by
  unfold providerOf claimedProviderAmended
  by_cases h : m.toList.contains '/'
  · rw [if_pos h]
  · rw [if_neg h]
    have hnm : ('/' : Char) ∉ m.toList := by
      intro hc
      exact h (by simpa using hc)
    rw [takeWhile_all _ _ (fun x hx => by
      have hne : x ≠ '/' := fun e => hnm (e ▸ hx)
      simp [hne])]
    rfl

/-- C4 (corrected, amended form): every route entry's provider is the
substring of its model before the first `'/'`, and the whole model identifier
when it contains no `'/'` (the claim says the empty string in that case). -/
theorem C4_provider_amended :
    ∀ (agentId : String) (ms : Json) (availability : String → Option Bool)
      (fmt : Int → String) (r : RouteModelStatus),
      r ∈ (compute_agent_availability agentId ms availability fmt).route →
      r.provider = claimedProviderAmended r.model := by
  intro agentId ms availability fmt r hr
  rw [compute_route_def] at hr
  rcases List.mem_map.mp hr with ⟨model, _, rfl⟩
  dsimp only [routeEntry]
  exact providerOf_eq_amended model

/-- A JSON agent-status value whose only route model has no `'/'`. -/
def msNoSlash : Json := Json.obj [("resolvedDefault", Json.str "gpt5")]

/-- C4 (counterexample): for route model `"gpt5"` (no `'/'`), the code sets
`provider = "gpt5"`, not the empty string the claim requires. -/
theorem C4_counterexample :
    ((compute_agent_availability "a" msNoSlash (fun _ => none) wFmt).route.map
      (fun r => r.model)) = ["gpt5"] ∧
    ((compute_agent_availability "a" msNoSlash (fun _ => none) wFmt).route.map
      (fun r => r.provider)) = ["gpt5"] ∧
    claimedProvider "gpt5" = "" ∧ ("gpt5" : String) ≠ "" := by decide

/-- Witness for C4 at a concrete input. -/
theorem C4_witness :
    (routeEntry (provider_summaries_from_models_status msCool) wAvail
        "p/m").provider =
      claimedProviderAmended
        (routeEntry (provider_summaries_from_models_status msCool) wAvail
          "p/m").model :=
  C4_provider_amended "translator" msCool wAvail wFmt _ (by decide)

/-! ## Claim C8: the note field -/

/-- The note exactly as the spec states it (claim C8), including the literal
`"Model not found in catalog."`. -/
def claimedNote (available : Option Bool) (s : ProviderAuthSummary) :
    Option String :=
  if available = none then some "Model not found in catalog."
  else if available = some true ∧
      (if s.oauth_seen then s.oauth_has_valid else s.api_key_seen) = false ∧
      s.total_profiles = 0 then
    some "No auth profiles found for this provider."
  else none

/-- The amended note: as claimed, with the first literal replaced by the one
the code actually emits. -/
def claimedNoteAmended (available : Option Bool) (s : ProviderAuthSummary) :
    Option String :=
  if available = none then
    some "Model not found in `openclaw models list` output."
  else if available = some true ∧
      (if s.oauth_seen then s.oauth_has_valid else s.api_key_seen) = false ∧
      s.total_profiles = 0 then
    some "No auth profiles found for this provider."
  else none

theorem noteOf_eq_claimedNoteAmended (available : Option Bool)
    (s : ProviderAuthSummary) :
    noteOf available s = claimedNoteAmended available s := by
  unfold noteOf claimedNoteAmended
  refine if_congr Iff.rfl rfl (if_congr ?_ rfl rfl)
  cases hos : s.oauth_seen <;> cases hak : s.api_key_seen <;>
    simp [authOkOf, hos, hak]

/-- C8 (corrected, amended form): a route entry's note is exactly
`"Model not found in \x60openclaw models list\x60 output."` when the model is
absent from the availability index (the claim says
`"Model not found in catalog."`); else exactly
`"No auth profiles found for this provider."` when available, auth not ok and
the provider has zero profiles; else absent. -/
theorem C8_note_amended :
    ∀ (agentId : String) (ms : Json) (availability : String → Option Bool)
      (fmt : Int → String) (r : RouteModelStatus),
      r ∈ (compute_agent_availability agentId ms availability fmt).route →
      r.note = claimedNoteAmended r.available
        (summaryFor (provider_summaries_from_models_status ms) r.provider) := by
  intro agentId ms availability fmt r hr
  rw [compute_route_def] at hr
  rcases List.mem_map.mp hr with ⟨model, _, rfl⟩
  dsimp only [routeEntry]
  exact noteOf_eq_claimedNoteAmended _ _

/-- C8 (counterexample): for a model unknown to the catalog the code's note is
the `openclaw models list` literal, not `"Model not found in catalog."`. -/
theorem C8_counterexample :
    ((compute_agent_availability "a" msNoSlash (fun _ => none) wFmt).route.map
      (fun r => r.note)) =
      [some "Model not found in `openclaw models list` output."] ∧
    claimedNote none
        (summaryFor (provider_summaries_from_models_status msNoSlash)
          (providerOf "gpt5")) = some "Model not found in catalog." ∧
    (some "Model not found in `openclaw models list` output." : Option String) ≠
      some "Model not found in catalog." := by decide

/-- Witness for C8 at a concrete input. -/
theorem C8_witness :
    (routeEntry (provider_summaries_from_models_status msCool) wAvail
        "p/m").note =
      claimedNoteAmended
        (routeEntry (provider_summaries_from_models_status msCool) wAvail
          "p/m").available
        (summaryFor (provider_summaries_from_models_status msCool)
          (routeEntry (provider_summaries_from_models_status msCool) wAvail
            "p/m").provider) :=
  C8_note_amended "translator" msCool wAvail wFmt _ (by decide)

/-! ## Claim C9: totality and defensive defaults -/

theorem mapGet_mapUpd_ne (m : SummaryMap) (k key : String)
    (g : ProviderAuthSummary → ProviderAuthSummary) (h : k ≠ key) :
    mapGet (mapUpd m k g) key = mapGet m key := by
  induction m with
  | nil => simp [mapUpd, mapGet, h]
  | cons kv rest ih =>
    obtain ⟨k', v⟩ := kv
    simp only [mapUpd]
    by_cases hk : k' = k
    · rw [if_pos hk]
      have hky : k' ≠ key := fun e => h (hk.symm.trans e)
      simp only [mapGet]
      rw [if_neg hky, if_neg hky]
    · rw [if_neg hk]
      simp only [mapGet]
      by_cases hky : k' = key
      · rw [if_pos hky, if_pos hky]
      · rw [if_neg hky, if_neg hky]
        exact ih

theorem summaryFor_mapUpd_self (m : SummaryMap) (k : String)
    (g : ProviderAuthSummary → ProviderAuthSummary) :
    summaryFor (mapUpd m k g) k = g (summaryFor m k) := by
  unfold summaryFor
  induction m with
  | nil => simp [mapUpd, mapGet]
  | cons kv rest ih =>
    obtain ⟨k', v⟩ := kv
    simp only [mapUpd]
    by_cases hk : k' = k
    · rw [if_pos hk]
      simp only [mapGet]
      rw [if_pos hk, if_pos hk]
      simp
    · rw [if_neg hk]
      simp only [mapGet]
      rw [if_neg hk, if_neg hk]
      exact ih

theorem mapGet_stepProfile_blank (m : SummaryMap) (pj : Json) (p : String)
    (hp : rustTrim p = "") (hm : mapGet m p = none) :
    mapGet (stepProfile m pj) p = none := by
  unfold stepProfile
  cases hprov : (pj.get "provider").bind Json.asStr with
  | none => exact hm
  | some prov =>
    dsimp only
    by_cases hb : rustTrim prov = ""
    · rw [if_pos hb]; exact hm
    · rw [if_neg hb]
      have hne : prov ≠ p := fun e => hb (by rw [e]; exact hp)
      rw [mapGet_mapUpd_ne _ _ _ _ hne]
      exact hm

theorem mapGet_stepUnusable_blank (m : SummaryMap) (u : Json) (p : String)
    (hp : rustTrim p = "") (hm : mapGet m p = none) :
    mapGet (stepUnusable m u) p = none := by
  unfold stepUnusable
  cases hprov : (u.get "provider").bind Json.asStr with
  | none => exact hm
  | some prov =>
    dsimp only
    by_cases hb : rustTrim prov = ""
    · rw [if_pos hb]; exact hm
    · rw [if_neg hb]
      have hne : prov ≠ p := fun e => hb (by rw [e]; exact hp)
      rw [mapGet_mapUpd_ne _ _ _ _ hne]
      exact hm

theorem mapGet_summaries_blank (ms : Json) (p : String) (hp : rustTrim p = "") :
    mapGet (provider_summaries_from_models_status ms) p = none := by
  unfold provider_summaries_from_models_status
  have h1 : ∀ (entries : List Json) (m : SummaryMap), mapGet m p = none →
      mapGet (entries.foldl stepProfile m) p = none := by
    intro entries
    induction entries with
    | nil => intro m hm; exact hm
    | cons e rest ih =>
      intro m hm
      exact ih _ (mapGet_stepProfile_blank m e p hp hm)
  have h2 : ∀ (entries : List Json) (m : SummaryMap), mapGet m p = none →
      mapGet (entries.foldl stepUnusable m) p = none := by
    intro entries
    induction entries with
    | nil => intro m hm; exact hm
    | cons e rest ih =>
      intro m hm
      exact ih _ (mapGet_stepUnusable_blank m e p hp hm)
  exact h2 _ _ (h1 _ [] rfl)

theorem stateOf_mem (available : Option Bool) (s : ProviderAuthSummary) :
    stateOf available s = "ok" ∨ stateOf available s = "cooldown" ∨
    stateOf available s = "unavailable" ∨ stateOf available s = "expired" ∨
    stateOf available s = "unknown" := by
  unfold stateOf
  split_ifs <;> simp

/-- C9 (confirmed): `compute_agent_availability` is a total function of its
(arbitrary, possibly malformed) JSON input — by construction it returns a
well-formed `AgentAvailability` and no error value for every `Json` — and it
behaves defensively: every state is one of the five legal strings,
`runnable_now` reflects exactly the presence of an `ok` entry, a non-runnable
agent always gets at least one blocked reason, and profile or unusable
entries with a blank provider are skipped (no blank key is ever present in
the summaries). -/
theorem C9_total_and_defensive :
    ∀ (agentId : String) (ms : Json) (availability : String → Option Bool)
      (fmt : Int → String),
      (compute_agent_availability agentId ms availability fmt).agent_id =
        agentId ∧
      (∀ r ∈ (compute_agent_availability agentId ms availability fmt).route,
        r.state = "ok" ∨ r.state = "cooldown" ∨ r.state = "unavailable" ∨
          r.state = "expired" ∨ r.state = "unknown") ∧
      ((compute_agent_availability agentId ms availability fmt).runnable_now =
          true ↔
        ∃ r, r ∈ (compute_agent_availability agentId ms availability fmt).route ∧
          r.state = "ok") ∧
      ((compute_agent_availability agentId ms availability fmt).runnable_now =
          false →
        (compute_agent_availability agentId ms availability fmt).blocked_reasons ≠
          []) ∧
      (∀ q, rustTrim q = "" →
        mapGet (provider_summaries_from_models_status ms) q = none) := by
  intro agentId ms availability fmt
  refine ⟨rfl, ?_, ?_, ?_, fun q hq => mapGet_summaries_blank ms q hq⟩
  · intro r hr
    rw [compute_route_def] at hr
    rcases List.mem_map.mp hr with ⟨model, _, rfl⟩
    dsimp only [routeEntry]
    exact stateOf_mem _ _
  · rw [compute_runnable_def, compute_route_def]
    simp [List.find?_isSome]
  · intro hrn
    rw [compute_runnable_def] at hrn
    rw [compute_blocked_def,
      if_neg (fun hc => Bool.false_ne_true (hrn ▸ hc))]
    dsimp only
    split
    · exact List.cons_ne_nil _ _
    · next h => exact h

/-- The empty availability lookup used by concrete test inputs. -/
def noAvail : String → Option Bool := fun _ => none

/-- Witness for C9 at a concrete input. -/
theorem C9_witness :
    (compute_agent_availability "translator" msCool noAvail wFmt).agent_id =
      "translator" ∧
    ((routeEntry (provider_summaries_from_models_status msCool) noAvail
        "p/m").state = "ok" ∨
      (routeEntry (provider_summaries_from_models_status msCool) noAvail
        "p/m").state = "cooldown" ∨
      (routeEntry (provider_summaries_from_models_status msCool) noAvail
        "p/m").state = "unavailable" ∨
      (routeEntry (provider_summaries_from_models_status msCool) noAvail
        "p/m").state = "expired" ∨
      (routeEntry (provider_summaries_from_models_status msCool) noAvail
        "p/m").state = "unknown") ∧
    (compute_agent_availability "translator" msCool noAvail wFmt).blocked_reasons ≠
      [] ∧
    mapGet (provider_summaries_from_models_status msCool) " " = none := by
  have h := C9_total_and_defensive "translator" msCool noAvail wFmt
  exact ⟨h.1, h.2.1 _ (by decide), h.2.2.2.1 (by decide),
    h.2.2.2.2 " " (by decide)⟩

/-! ## Claim C3: full-cooldown providers carry the maximum `until` -/

/-- The unusable entries attributed to provider `p` (spec words, claim C3). -/
def unusableEntriesFor (ms : Json) (p : String) : List Json :=
  (unusableProfilesOf ms).filter
    (fun u => decide ((u.get "provider").bind Json.asStr = some p))

/-- The maximum `until` value seen across `p`'s unusable entries (spec words,
claim C3): the maximum of the `until` fields that are present, absent when
none is. -/
def maxUntil (ms : Json) (p : String) : Option Int :=
  ((unusableEntriesFor ms p).filterMap
    (fun u => (u.get "until").bind Json.asI64)).max?

theorem summaryFor_stepUnusable (m : SummaryMap) (u : Json) (p : String)
    (hp : rustTrim p ≠ "") :
    summaryFor (stepUnusable m u) p =
      if (u.get "provider").bind Json.asStr = some p then
        applyUnusable (summaryFor m p) u
      else summaryFor m p := by
  unfold stepUnusable
  cases hprov : (u.get "provider").bind Json.asStr with
  | none =>
    rw [if_neg (by simp)]
  | some prov =>
    dsimp only
    by_cases hpp : prov = p
    · subst hpp
      rw [if_neg hp, if_pos rfl]
      exact summaryFor_mapUpd_self m prov _
    · have hsp : ¬(some prov = some p) := by simp [hpp]
      by_cases hb : rustTrim prov = ""
      · rw [if_pos hb, if_neg hsp]
      · rw [if_neg hb, if_neg hsp]
        unfold summaryFor
        rw [mapGet_mapUpd_ne _ _ _ _ hpp]

theorem summaryFor_foldl_unusable (p : String) (hp : rustTrim p ≠ "") :
    ∀ (us : List Json) (m : SummaryMap),
      summaryFor (us.foldl stepUnusable m) p =
        (us.filter (fun u =>
          decide ((u.get "provider").bind Json.asStr = some p))).foldl
          applyUnusable (summaryFor m p) := by
  intro us
  induction us with
  | nil => intro m; rfl
  | cons u rest ih =>
    intro m
    rw [List.foldl_cons]
    by_cases hu : (u.get "provider").bind Json.asStr = some p
    · rw [List.filter_cons_of_pos (by simpa using hu), List.foldl_cons, ih,
        summaryFor_stepUnusable m u p hp, if_pos hu]
    · rw [List.filter_cons_of_neg (by simpa using hu), ih,
        summaryFor_stepUnusable m u p hp, if_neg hu]

theorem applyProfile_cul (s : ProviderAuthSummary) (p : Json) :
    (applyProfile s p).cooldown_until_ms = s.cooldown_until_ms := by
  unfold applyProfile
  dsimp only
  split_ifs <;> rfl

theorem summaryFor_stepProfile_cul (m : SummaryMap) (pj : Json)
    (hm : ∀ q', (summaryFor m q').cooldown_until_ms = none) (q : String) :
    (summaryFor (stepProfile m pj) q).cooldown_until_ms = none := by
  unfold stepProfile
  cases hprov : (pj.get "provider").bind Json.asStr with
  | none => exact hm q
  | some prov =>
    dsimp only
    by_cases hb : rustTrim prov = ""
    · rw [if_pos hb]; exact hm q
    · rw [if_neg hb]
      by_cases hq : prov = q
      · subst hq
        rw [summaryFor_mapUpd_self, applyProfile_cul]
        exact hm prov
      · unfold summaryFor
        rw [mapGet_mapUpd_ne _ _ _ _ hq]
        exact hm q

theorem summaryFor_foldl_profile_cul (ps : List Json) :
    ∀ (m : SummaryMap), (∀ q, (summaryFor m q).cooldown_until_ms = none) →
      ∀ q, (summaryFor (ps.foldl stepProfile m) q).cooldown_until_ms = none := by
  induction ps with
  | nil => intro m hm q; exact hm q
  | cons pj rest ih =>
    intro m hm q
    rw [List.foldl_cons]
    exact ih (stepProfile m pj) (summaryFor_stepProfile_cul m pj hm) q

theorem foldl_applyUnusable_cul :
    ∀ (us : List Json) (s : ProviderAuthSummary),
      (us.foldl applyUnusable s).cooldown_until_ms =
        (us.filterMap (fun u => (u.get "until").bind Json.asI64)).foldl
          (fun acc v => some (acc.elim v (fun prev => max prev v)))
          s.cooldown_until_ms := by
  intro us
  induction us with
  | nil => intro s; rfl
  | cons u rest ih =>
    intro s
    rw [List.foldl_cons]
    cases hu : (u.get "until").bind Json.asI64 with
    | none =>
      rw [@List.filterMap_cons_none _ _
        (fun u => (u.get "until").bind Json.asI64) u rest hu, ih]
      congr 1
      unfold applyUnusable
      rw [hu]
    | some v =>
      rw [@List.filterMap_cons_some _ _
        (fun u => (u.get "until").bind Json.asI64) u rest v hu,
        List.foldl_cons, ih]
      congr 1
      unfold applyUnusable
      rw [hu]
      dsimp only
      cases s.cooldown_until_ms <;> rfl

theorem foldl_maxStep_some :
    ∀ (vals : List Int) (x : Int),
      vals.foldl (fun acc v => some (acc.elim v (fun prev => max prev v)))
          (some x) =
        some (vals.foldl max x) := by
  intro vals
  induction vals with
  | nil => intro x; rfl
  | cons v rest ih =>
    intro x
    rw [List.foldl_cons, List.foldl_cons]
    exact ih (max x v)

theorem foldl_maxStep_none :
    ∀ (vals : List Int),
      vals.foldl (fun acc v => some (acc.elim v (fun prev => max prev v)))
          none =
        vals.max? := by
  intro vals
  cases vals with
  | nil => rfl
  | cons v rest =>
    rw [List.foldl_cons]
    exact (foldl_maxStep_some rest v).trans rfl

theorem summaries_cul_eq_maxUntil (ms : Json) (p : String)
    (hp : rustTrim p ≠ "") :
    (summaryFor (provider_summaries_from_models_status ms) p).cooldown_until_ms =
      maxUntil ms p := by
  unfold provider_summaries_from_models_status maxUntil unusableEntriesFor
  rw [summaryFor_foldl_unusable p hp, foldl_applyUnusable_cul,
    summaryFor_foldl_profile_cul (oauthProfilesOf ms) [] (fun _ => rfl) p,
    foldl_maxStep_none]

/-- C3 (corrected, amended form): when a provider's cooldown profile count
equals its total profile count (both positive), every route entry of that
provider whose catalog availability is not `Some(false)` has state
`"cooldown"` and carries the maximum `until` seen across the provider's
unusable entries (the claim omits the `available == Some(false)` exception,
where the `unavailable` precedence wins). -/
theorem C3_full_cooldown_amended :
    ∀ (agentId : String) (ms : Json) (availability : String → Option Bool)
      (fmt : Int → String) (p : String),
      (summaryFor (provider_summaries_from_models_status ms) p).cooldown_profiles =
        (summaryFor (provider_summaries_from_models_status ms) p).total_profiles →
      0 < (summaryFor (provider_summaries_from_models_status ms) p).total_profiles →
      ∀ r ∈ (compute_agent_availability agentId ms availability fmt).route,
        r.provider = p → r.available ≠ some false →
        r.state = "cooldown" ∧ r.cooldown_until_ms = maxUntil ms p := by
  intro agentId ms availability fmt p heq hpos r hr hprov hav
  have hp : rustTrim p ≠ "" := by
    intro hblank
    have hnone := mapGet_summaries_blank ms p hblank
    unfold summaryFor at hpos
    rw [hnone] at hpos
    simp at hpos
  rw [compute_route_def] at hr
  rcases List.mem_map.mp hr with ⟨model, _, rfl⟩
  dsimp only [routeEntry] at hprov hav ⊢
  rw [hprov]
  have hcool : allInCooldown
      (summaryFor (provider_summaries_from_models_status ms) p) = true := by
    unfold allInCooldown
    simp only [Bool.and_eq_true, decide_eq_true_eq]
    exact ⟨hpos, le_of_eq heq.symm⟩
  have hstate : stateOf (availability model)
      (summaryFor (provider_summaries_from_models_status ms) p) = "cooldown" := by
    unfold stateOf
    rw [if_neg hav, if_pos hcool]
  refine ⟨hstate, ?_⟩
  rw [hstate, if_pos rfl]
  exact summaries_cul_eq_maxUntil ms p hp

/-- The availability lookup that marks `"p/m"` unavailable. -/
def availPFalse : String → Option Bool :=
  fun m => if m = "p/m" then some false else none

/-- C3 (counterexample): in `msCool` provider `p` has cooldown count equal to
its (positive) total count, yet when the catalog marks the route model
unavailable its route entry has state `"unavailable"`, not `"cooldown"` as
the claim requires of every route entry of that provider. -/
theorem C3_counterexample :
    (summaryFor (provider_summaries_from_models_status msCool)
        "p").cooldown_profiles =
      (summaryFor (provider_summaries_from_models_status msCool)
        "p").total_profiles ∧
    0 < (summaryFor (provider_summaries_from_models_status msCool)
        "p").total_profiles ∧
    ((compute_agent_availability "a" msCool availPFalse wFmt).route.map
      (fun r => r.provider)) = ["p"] ∧
    ((compute_agent_availability "a" msCool availPFalse wFmt).route.map
      (fun r => r.state)) = ["unavailable"] ∧
    ("unavailable" : String) ≠ "cooldown" := by decide

/-- Witness for C3 at a concrete input. -/
theorem C3_witness :
    (routeEntry (provider_summaries_from_models_status msCool) wAvail
        "p/m").state = "cooldown" ∧
    (routeEntry (provider_summaries_from_models_status msCool) wAvail
        "p/m").cooldown_until_ms = maxUntil msCool "p" :=
  C3_full_cooldown_amended "translator" msCool wAvail wFmt "p" (by decide)
    (by decide) _ (by decide) (by decide) (by decide)

/-! ## Claim C5: blocked reason composition -/

/-- The per-provider reason precedence exactly as the spec states it
(spec §4.4 / claim C5). -/
def claimedReasonOf (route : List RouteModelStatus) (s : ProviderAuthSummary)
    (fmt : Int → String) (p : String) : Option String :=
  if 0 < s.total_profiles ∧ s.cooldown_profiles ≥ s.total_profiles then
    some (match s.cooldown_until_ms with
      | some u => p ++ " is in cooldown until " ++ fmt u ++ " (" ++
          toString u ++ ")."
      | none => p ++ " is in cooldown.")
  else if ∃ r ∈ route, r.provider = p ∧ r.state = "unavailable" then
    some (p ++ " models are unavailable.")
  else if s.oauth_seen = true ∧ s.oauth_has_valid = false then
    some (p ++ " OAuth appears expired or missing.")
  else if s.total_profiles = 0 then
    some (p ++ " has no auth profiles configured.")
  else if ∀ r ∈ route, r.provider = p → r.state = "unknown" then
    some (p ++ " availability is unknown.")
  else none

/-- The blocked-reason list as the spec describes it (claim C5): walk the
distinct providers in route order (first occurrence wins), emit each
provider's first applicable reason, and fall back to the single reason
`"No runnable route model found."` when the scan emits nothing. -/
def composeBlockedReasons (route : List RouteModelStatus)
    (summaries : SummaryMap) (fmt : Int → String) : List String :=
  let reasons := (dedupF (route.map (fun r => r.provider)) []).filterMap
    (fun p => claimedReasonOf route (summaryFor summaries p) fmt p)
  if reasons = [] then ["No runnable route model found."] else reasons

theorem reasonOf_eq_claimed (route : List RouteModelStatus)
    (s : ProviderAuthSummary) (fmt : Int → String) (p : String) :
    reasonOf route s fmt p = claimedReasonOf route s fmt p := by
  unfold reasonOf claimedReasonOf
  refine if_congr ?_ rfl (if_congr ?_ rfl (if_congr ?_ rfl
    (if_congr Iff.rfl rfl (if_congr ?_ rfl rfl))))
  · simp [allInCooldown, ge_iff_le]
  · simp [List.any_eq_true]
  · cases hos : s.oauth_seen <;> simp [oauthExpiredOf, hos]
  · simp only [List.all_eq_true, Bool.or_eq_true, Bool.not_eq_true',
      decide_eq_true_eq, decide_eq_false_iff_not]
    constructor
    · intro h r hrm hrp
      rcases h r hrm with hnp | hu
      · exact absurd hrp hnp
      · exact hu
    · intro h r hrm
      by_cases hp' : r.provider = p
      · exact Or.inr (h r hrm hp')
      · exact Or.inl hp'

theorem blockedLoop_eq (route : List RouteModelStatus)
    (summaries : SummaryMap) (fmt : Int → String) :
    ∀ (items : List RouteModelStatus) (seen : List String),
      blockedLoop route summaries fmt items seen =
        (dedupF (items.map (fun r => r.provider)) seen).filterMap
          (fun p => reasonOf route (summaryFor summaries p) fmt p) := by
  intro items
  induction items with
  | nil => intro seen; rfl
  | cons item rest ih =>
    intro seen
    rw [List.map_cons]
    by_cases hs : item.provider ∈ seen
    · simp only [blockedLoop, dedupF]
      rw [if_pos hs, if_pos hs]
      exact ih seen
    · simp only [blockedLoop, dedupF]
      rw [if_neg hs, if_neg hs, List.filterMap_cons]
      cases hreason : reasonOf route (summaryFor summaries item.provider) fmt
          item.provider with
      | none => exact ih _
      | some rr => exact congrArg (rr :: ·) (ih _)

/-- C5 (confirmed): when no route entry is `ok`, the blocked reasons are
exactly the spec's composition — distinct providers in first-occurrence route
order, at most one reason each, chosen by the claimed precedence
(all-in-cooldown, any entry unavailable, oauth expired, zero profiles, all
entries unknown) — with the single fallback reason
`"No runnable route model found."` when the scan emits nothing. -/
theorem C5_blocked_composition :
    ∀ (agentId : String) (ms : Json) (availability : String → Option Bool)
      (fmt : Int → String),
      (∀ r ∈ (compute_agent_availability agentId ms availability fmt).route,
        r.state ≠ "ok") →
      (compute_agent_availability agentId ms availability fmt).blocked_reasons =
        composeBlockedReasons
          (compute_agent_availability agentId ms availability fmt).route
          (provider_summaries_from_models_status ms) fmt := by
  intro agentId ms availability fmt hok
  have hfind : (((routeModelsOf ms).map
      (routeEntry (provider_summaries_from_models_status ms)
        availability)).find? (fun r => decide (r.state = "ok"))) = none := by
    rw [List.find?_eq_none]
    intro r hr
    simpa using hok r (by rw [compute_route_def]; exact hr)
  rw [compute_blocked_def, compute_route_def, hfind,
    if_neg (by simp)]
  dsimp only
  rw [blockedLoop_eq]
  unfold composeBlockedReasons
  dsimp only
  rw [funext (fun p => reasonOf_eq_claimed
    ((routeModelsOf ms).map
      (routeEntry (provider_summaries_from_models_status ms) availability))
    (summaryFor (provider_summaries_from_models_status ms) p) fmt p)]

/-- Witness for C5 at a concrete input. -/
theorem C5_witness :
    (compute_agent_availability "translator" msCool availPFalse
        wFmt).blocked_reasons =
      composeBlockedReasons
        (compute_agent_availability "translator" msCool availPFalse wFmt).route
        (provider_summaries_from_models_status msCool) wFmt :=
  C5_blocked_composition "translator" msCool availPFalse wFmt (by decide)
